import Mathlib

/-!
Verification of the boxing-match Monte Carlo simulator (`sim/odds.py`,
`sim/model.py`, `sim/engine.py`).

Floating-point values are modelled as exact rationals (`ℚ`); the claims under
study concern branch structure, indices, ordering and determinism, not float
rounding.  The NumPy seeded generator `np.random.default_rng(seed)` is a pure
function of the seed: we model it as a state `Rng` holding the seed and the
number of draws made so far, reading successive uniform values from a stream
`u : Int → Nat → ℚ` (seed, draw index ↦ value in `[0,1)`), universally
quantified in the theorems.  Python exceptions escaping a function are
modelled by `Except`/`Option` results.
-/

namespace Sim

/-- Source `odds.py :: american_to_implied_prob`.  The test `if odds > 0`
selects the positive branch; everything else (including 0) takes the
`abs(odds)/(abs(odds)+100)` branch. -/
def american_to_implied_prob (odds : Int) : ℚ :=
  if odds > 0 then
    100 / ((odds : ℚ) + 100)
  else
    (odds.natAbs : ℚ) / ((odds.natAbs : ℚ) + 100)

/-- Source `odds.py :: normalize_probs`.  The Python dict (insertion-ordered)
is modelled as an association list; the `ValueError` on zero sum becomes
`.error`. -/
def normalize_probs (probs : List (String × ℚ)) : Except String (List (String × ℚ)) :=
  let total := (probs.map (fun kv => kv.2)).sum
  if total = 0 then
    .error "Sum of probabilities cannot be zero"
  else
    .ok (probs.map (fun kv => (kv.1, kv.2 / total)))

/-- Source `model.py :: OddsConfig` (defaults as in the source). -/
structure OddsConfig where
  joshua_moneyline : Int := -1200
  paul_moneyline : Int := 800
  joshua_ko : Int := -390
  joshua_decision : Int := 450
  paul_ko : Int := 1200
  paul_decision : Int := 1300
  draw : Int := 2500
  total_rounds : Int := 8
deriving DecidableEq, Repr

/-- Source `model.py :: RoundDistribution` (the fields after
`__post_init__` ran). -/
structure RoundDistribution where
  joshua_ko_rounds : List ℚ
  paul_ko_rounds : List ℚ
deriving DecidableEq, Repr

/-- Source `model.py :: RoundDistribution.__post_init__`: dataclass
construction runs the validation/normalization; `ValueError` becomes
`.error`.  Note that the length checks compare against the literal 8 and
that a vector with sum 0 is left unchanged (the `if joshua_sum > 0` and
`if paul_sum > 0` guards). -/
def mkRoundDistribution (j p : List ℚ) : Except String RoundDistribution :=
  if j.length ≠ 8 then .error "joshua_ko_rounds must have 8 values"
  else if p.length ≠ 8 then .error "paul_ko_rounds must have 8 values"
  else if j.any (fun x => x < 0) then .error "joshua_ko_rounds must be non-negative"
  else if p.any (fun x => x < 0) then .error "paul_ko_rounds must be non-negative"
  else
    let jsum := j.sum
    let psum := p.sum
    .ok { joshua_ko_rounds := if jsum > 0 then j.map (fun x => x / jsum) else j
          paul_ko_rounds := if psum > 0 then p.map (fun x => x / psum) else p }

/-- Source `model.py :: SimulationParams`. -/
structure SimulationParams where
  odds : OddsConfig
  round_dist : RoundDistribution
  seed : Int := 42
  enable_draw : Bool := false
deriving DecidableEq, Repr

/-- Source `model.py :: FightResult`. -/
structure FightResult where
  sim_id : Int
  winner : String
  method : String
  round : Int
deriving DecidableEq, Repr

/-- State of `np.random.default_rng`: the seed it was created from and how
many uniform doubles have been drawn so far.  The values themselves come
from the stream parameter `u`. -/
structure Rng where
  seed : Int
  idx : Nat
deriving DecidableEq, Repr

/-- One call `rng.random()`. -/
def Rng.draw (u : Int → Nat → ℚ) (r : Rng) : ℚ × Rng :=
  (u r.seed r.idx, { r with idx := r.idx + 1 })

/-- One call `rng.random(count)`: the next `count` consecutive uniforms. -/
def Rng.drawMany (u : Int → Nat → ℚ) (r : Rng) (count : Nat) : List ℚ × Rng :=
  ((List.range count).map (fun i => u r.seed (r.idx + i)),
   { r with idx := r.idx + count })

/-- Model of `np.searchsorted(a, v)` with the default left side, on a sorted
array: the first index whose entry is ≥ `v`; `a.length` when none is. -/
def searchsorted (a : List ℚ) (v : ℚ) : Nat :=
  match a with
  | [] => 0
  | x :: xs => if v ≤ x then 0 else searchsorted xs v + 1

/-- Model of `np.cumsum` on a list of rationals. -/
def cumsum (l : List ℚ) : List ℚ :=
  match l with
  | [] => []
  | x :: xs => x :: (cumsum xs).map (fun y => x + y)

/-- Attributes of `engine.py :: SimulationEngine` after `__init__`. -/
structure SimulationEngine where
  params : SimulationParams
  rng : Rng
  normalized_probs : List (String × ℚ)
  outcomes : List String
  cumulative_probs : List ℚ
deriving DecidableEq, Repr

/-- Source `engine.py :: SimulationEngine._compute_probabilities` (the part
that builds `normalized_probs`, `outcomes` and `cumulative_probs`); the
`ValueError` raised by `normalize_probs` propagates out of `__init__`. -/
def compute_probabilities (params : SimulationParams) :
    Except String (List (String × ℚ) × List String × List ℚ) :=
  let odds := params.odds
  let probs : List (String × ℚ) :=
    [("joshua_ko", american_to_implied_prob odds.joshua_ko),
     ("joshua_decision", american_to_implied_prob odds.joshua_decision),
     ("paul_ko", american_to_implied_prob odds.paul_ko),
     ("paul_decision", american_to_implied_prob odds.paul_decision)] ++
    (if params.enable_draw then [("draw", american_to_implied_prob odds.draw)] else [])
  match normalize_probs probs with
  | .error e => .error e
  | .ok np =>
    let outcomes : List String :=
      ["joshua_ko", "joshua_decision", "paul_ko", "paul_decision"] ++
      (if params.enable_draw then ["draw"] else [])
    let cum := cumsum (outcomes.map (fun o => ((np.lookup o).getD 0)))
    .ok (np, outcomes, cum)

/-- Source `engine.py :: SimulationEngine.__init__`: stores the params, seeds
the generator from `params.seed`, and precomputes the probability tables. -/
def mkEngine (params : SimulationParams) : Except String SimulationEngine :=
  match compute_probabilities params with
  | .error e => .error e
  | .ok (np, outs, cum) =>
    .ok { params := params
          rng := { seed := params.seed, idx := 0 }
          normalized_probs := np
          outcomes := outs
          cumulative_probs := cum }

/-- Source `engine.py :: SimulationEngine.reseed`: replaces the generator
with a freshly seeded one and updates the stored seed field. -/
def reseed (e : SimulationEngine) (seed : Int) : SimulationEngine :=
  { e with rng := { seed := seed, idx := 0 }
           params := { e.params with seed := seed } }

/-- Source `engine.py :: SimulationEngine._sample_round`: cumulative sum of
the round weights, one uniform draw, searchsorted, then
`min(round_idx + 1, 8)`. -/
def sample_round (u : Int → Nat → ℚ) (round_probs : List ℚ) (r : Rng) :
    Int × Rng :=
  let cum_probs := cumsum round_probs
  let d := Rng.draw u r
  let round_idx := searchsorted cum_probs d.1
  (((min (round_idx + 1) 8 : Nat) : Int), d.2)

/-- Body of the `for i in range(count)` loop of `simulate_batch` for one
outcome label: builds the record (drawing the round uniform for the KO
branches) and returns it with the advanced generator. -/
def simStep (u : Int → Nat → ℚ) (e : SimulationEngine) (outcome : String)
    (sim_id : Int) (r : Rng) : FightResult × Rng :=
  if outcome = "joshua_ko" then
    let s := sample_round u e.params.round_dist.joshua_ko_rounds r
    ({ sim_id := sim_id, winner := "Joshua", method := "KO/TKO/DQ",
       round := s.1 }, s.2)
  else if outcome = "joshua_decision" then
    ({ sim_id := sim_id, winner := "Joshua", method := "Decision",
       round := 9 }, r)
  else if outcome = "paul_ko" then
    let s := sample_round u e.params.round_dist.paul_ko_rounds r
    ({ sim_id := sim_id, winner := "Paul", method := "KO/TKO/DQ",
       round := s.1 }, s.2)
  else if outcome = "paul_decision" then
    ({ sim_id := sim_id, winner := "Paul", method := "Decision",
       round := 9 }, r)
  else
    ({ sim_id := sim_id, winner := "Draw", method := "Decision",
       round := 9 }, r)

/-- Loop of `simulate_batch` over the precomputed outcome indices:
`self.outcomes[outcome_idx]` raising `IndexError` is modelled by `none`;
`sim_id` is threaded as the running `start_id + i`. -/
def simBatchLoop (u : Int → Nat → ℚ) (e : SimulationEngine) :
    List Nat → Int → Rng → Option (List FightResult × Rng)
  | [], _, r => some ([], r)
  | outcome_idx :: rest, sim_id, r =>
    match e.outcomes.get? outcome_idx with
    | none => none
    | some outcome =>
      let step := simStep u e outcome sim_id r
      match simBatchLoop u e rest (sim_id + 1) step.2 with
      | none => none
      | some out => some (step.1 :: out.1, out.2)

/-- Source `engine.py :: SimulationEngine.simulate_batch`: draws all `count`
top-level uniforms as one block (`self.rng.random(count)`), maps them
through `searchsorted` on the cumulative table, then builds the records,
drawing the per-record round uniform inside the loop.  Returns the records
together with the engine holding the advanced generator; `none` models an
uncaught exception. -/
def simulate_batch (u : Int → Nat → ℚ) (e : SimulationEngine) (count : Nat)
    (start_id : Int) : Option (List FightResult × SimulationEngine) :=
  let drawn := Rng.drawMany u e.rng count
  let outcome_indices := drawn.1.map (searchsorted e.cumulative_probs)
  match simBatchLoop u e outcome_indices start_id drawn.2 with
  | none => none
  | some out => some (out.1, { e with rng := out.2 })

/-! ### Concrete fixtures used by witnesses and counterexamples -/

/-- Uniform round-weight vector (already normalized, as after construction). -/
def vec8 : List ℚ := List.replicate 8 (1/8 : ℚ)

/-- Round distribution with uniform weights for both parties. -/
def testDist : RoundDistribution := { joshua_ko_rounds := vec8, paul_ko_rounds := vec8 }

/-- Default params: default odds, uniform round weights, seed 42, no draw. -/
def testParams : SimulationParams := { odds := {}, round_dist := testDist }

/-- The engine `mkEngine testParams` evaluates to (checked by `rfl` in the
witnesses below). -/
def engA : SimulationEngine :=
  { params := testParams
    rng := { seed := 42, idx := 0 }
    normalized_probs := [("joshua_ko", 11154/15781), ("joshua_decision", 2548/15781),
                         ("paul_ko", 1078/15781), ("paul_decision", 1001/15781)]
    outcomes := ["joshua_ko", "joshua_decision", "paul_ko", "paul_decision"]
    cumulative_probs := [11154/15781, 13702/15781, 14780/15781, 1] }

/-- Stream that always yields 0 (a valid uniform value). -/
def uZero : Int → Nat → ℚ := fun _ _ => 0

/-- Stream yielding 9/10 at draw index 2 and 0 elsewhere. -/
def uNine : Int → Nat → ℚ := fun _ n => if n = 2 then 9/10 else 0

/-- Stream that always yields 4/5: on the default odds this selects the
`joshua_decision` top-level outcome. -/
def uDec : Int → Nat → ℚ := fun _ _ => 4/5

/-- Params identical to `testParams` except `total_rounds := 5`. -/
def paramsT5 : SimulationParams :=
  { odds := { total_rounds := 5 }, round_dist := testDist }

/-- Params identical to `testParams` except `total_rounds := 10`. -/
def paramsT10 : SimulationParams :=
  { odds := { total_rounds := 10 }, round_dist := testDist }

/-! ### Helper lemmas -/

lemma cumsum_length (l : List ℚ) : (cumsum l).length = l.length := by
  induction l with
  | nil => rfl
  | cons x xs ih => simp [cumsum, ih]

lemma cumsum_getLast_eq_sum (l : List ℚ) (h : l ≠ []) :
    (cumsum l).getLast? = some l.sum := by
  induction l with
  | nil => exact absurd rfl h
  | cons x xs ih =>
    cases xs with
    | nil => simp [cumsum]
    | cons y ys =>
      rw [cumsum, List.getLast?_cons, List.getLast?_map, ih (by simp)]
      simp [add_comm]

lemma searchsorted_le_length (a : List ℚ) (v : ℚ) : searchsorted a v ≤ a.length := by
  induction a with
  | nil => simp [searchsorted]
  | cons x xs ih =>
    rw [searchsorted]
    split
    · simp
    · simpa using ih

lemma searchsorted_lt_length (a : List ℚ) (v x : ℚ)
    (hx : a.getLast? = some x) (hv : v ≤ x) :
    searchsorted a v < a.length := by
  induction a with
  | nil => simp at hx
  | cons y ys ih =>
    rw [searchsorted]
    cases ys with
    | nil =>
      simp at hx
      subst hx
      rw [if_pos hv]
      simp
    | cons z zs =>
      rw [List.getLast?_cons_cons] at hx
      split
      · simp
      · have := ih hx
        simpa [Nat.succ_lt_succ_iff] using this

lemma searchsorted_eq_length_of_all_lt (a : List ℚ) (v : ℚ)
    (h : ∀ y ∈ a, y < v) : searchsorted a v = a.length := by
  induction a with
  | nil => rfl
  | cons x xs ih =>
    rw [searchsorted, if_neg (by push_neg; exact h x (by simp))]
    simp [ih (fun y hy => h y (by simp [hy]))]

lemma cumsum_eq_zero (l : List ℚ) (h : ∀ x ∈ l, x = 0) :
    ∀ y ∈ cumsum l, y = 0 := by
  induction l with
  | nil => simp [cumsum]
  | cons x xs ih =>
    intro y hy
    rw [cumsum] at hy
    rcases List.mem_cons.mp hy with h1 | h2
    · rw [h1]
      exact h x (by simp)
    · obtain ⟨z, hz, hzy⟩ := List.mem_map.mp h2
      rw [← hzy, h x (by simp), ih (fun w hw => h w (by simp [hw])) z hz]
      simp

lemma sample_round_bounds (u : Int → Nat → ℚ) (rp : List ℚ) (r : Rng) :
    1 ≤ (sample_round u rp r).1 ∧ (sample_round u rp r).1 ≤ 8 := by
  have h1 : 1 ≤ min (searchsorted (cumsum rp) (Rng.draw u r).1 + 1) 8 :=
    le_min (Nat.succ_le_succ (Nat.zero_le _)) (by omega)
  have h2 : min (searchsorted (cumsum rp) (Rng.draw u r).1 + 1) 8 ≤ 8 :=
    min_le_right _ _
  unfold sample_round
  dsimp only
  exact ⟨by exact_mod_cast h1, by exact_mod_cast h2⟩

/-- Invariant on one record: finish rounds lie in `[1, 8]`, decision and
draw records carry the sentinel round 9. -/
def roundInvariant (res : FightResult) : Prop :=
  (res.method = "KO/TKO/DQ" → 1 ≤ res.round ∧ res.round ≤ 8) ∧
  ((res.method = "Decision" ∨ res.winner = "Draw") → res.round = 9)

lemma simStep_invariant (u : Int → Nat → ℚ) (e : SimulationEngine)
    (outcome : String) (sid : Int) (r : Rng) :
    roundInvariant (simStep u e outcome sid r).1 := by
  unfold simStep roundInvariant
  split
  · exact ⟨fun _ => sample_round_bounds u _ r, by simp⟩
  · split
    · exact ⟨by simp, fun _ => rfl⟩
    · split
      · exact ⟨fun _ => sample_round_bounds u _ r, by simp⟩
      · split
        · exact ⟨by simp, fun _ => rfl⟩
        · exact ⟨by simp, fun _ => rfl⟩

lemma simBatchLoop_invariant (u : Int → Nat → ℚ) (e : SimulationEngine) :
    ∀ (idxs : List Nat) (sid : Int) (r : Rng) (results : List FightResult) (r2 : Rng),
      simBatchLoop u e idxs sid r = some (results, r2) →
      ∀ res ∈ results, roundInvariant res := by
  intro idxs
  induction idxs with
  | nil =>
    intro sid r results r2 h res hres
    rw [simBatchLoop] at h
    simp at h
    rw [h.1] at hres
    simp at hres
  | cons i rest ih =>
    intro sid r results r2 h res hres
    rw [simBatchLoop] at h
    cases hg : e.outcomes.get? i with
    | none => rw [hg] at h; simp at h
    | some outcome =>
      rw [hg] at h
      dsimp only at h
      cases hrec : simBatchLoop u e rest (sid + 1) (simStep u e outcome sid r).2 with
      | none => rw [hrec] at h; simp at h
      | some out =>
        rw [hrec] at h
        simp at h
        rw [← h.1] at hres
        rcases List.mem_cons.mp hres with h1 | h2
        · rw [h1]
          exact simStep_invariant u e outcome sid r
        · exact ih (sid + 1) _ out.1 out.2 (by rw [hrec]) res h2

lemma simBatchLoop_isSome (u : Int → Nat → ℚ) (e : SimulationEngine) :
    ∀ (idxs : List Nat) (sid : Int) (r : Rng),
      (∀ i ∈ idxs, i < e.outcomes.length) →
      ∃ out, simBatchLoop u e idxs sid r = some out := by
  intro idxs
  induction idxs with
  | nil => intro sid r _; exact ⟨([], r), rfl⟩
  | cons i rest ih =>
    intro sid r h
    have hi : i < e.outcomes.length := h i (by simp)
    have hg : e.outcomes.get? i = some (e.outcomes.get ⟨i, hi⟩) := List.get?_eq_get hi
    obtain ⟨out, hout⟩ := ih (sid + 1)
      (simStep u e (e.outcomes.get ⟨i, hi⟩) sid r).2
      (fun j hj => h j (by simp [hj]))
    refine ⟨((simStep u e (e.outcomes.get ⟨i, hi⟩) sid r).1 :: out.1, out.2), ?nextstep⟩
    rw [simBatchLoop, hg]
    dsimp only
    rw [hout]

lemma mkEngine_ok_elim (p : SimulationParams) (e : SimulationEngine)
    (he : mkEngine p = .ok e) :
    compute_probabilities p = .ok (e.normalized_probs, e.outcomes, e.cumulative_probs) ∧
    e.params = p ∧ e.rng = { seed := p.seed, idx := 0 } := by
  unfold mkEngine at he
  cases hc : compute_probabilities p with
  | error msg => rw [hc] at he; simp at he
  | ok tup =>
    obtain ⟨np, outs, cum⟩ := tup
    rw [hc] at he
    simp at he
    rw [← he]
    exact ⟨rfl, rfl, rfl⟩

lemma compute_probabilities_tables (p : SimulationParams)
    (np : List (String × ℚ)) (outs : List String) (cum : List ℚ)
    (hc : compute_probabilities p = .ok (np, outs, cum)) :
    cum.getLast? = some 1 ∧ cum.length = outs.length := by
  by_cases hd : p.enable_draw
  · simp only [compute_probabilities, normalize_probs, hd, if_true, List.append_nil] at hc
    split at hc
    · simp at hc
    · next np1 ht =>
      split at ht
      · simp at ht
      · next htotal =>
        simp only [Except.ok.injEq, Prod.mk.injEq] at hc ht
        obtain ⟨hnp, houts, hcum⟩ := hc
        subst hnp houts hcum
        subst ht
        rw [cumsum_getLast_eq_sum _ (by simp), cumsum_length]
        refine ⟨?lastone, by simp⟩
        simp only [List.map_append, List.map_cons, List.map_nil, List.sum_append,
          List.sum_cons, List.sum_nil, List.lookup] at htotal ⊢
        simp [List.lookup]
        set a := american_to_implied_prob p.odds.joshua_ko
        set b := american_to_implied_prob p.odds.joshua_decision
        set c := american_to_implied_prob p.odds.paul_ko
        set d := american_to_implied_prob p.odds.paul_decision
        set f := american_to_implied_prob p.odds.draw
        have ht2 : a + (b + (c + d)) + f ≠ 0 := by
          intro h0
          exact htotal (by linarith)
        field_simp
  · simp only [compute_probabilities, normalize_probs, hd, if_false, Bool.false_eq_true,
      List.append_nil] at hc
    split at hc
    · simp at hc
    · next np1 ht =>
      split at ht
      · simp at ht
      · next htotal =>
        simp only [Except.ok.injEq, Prod.mk.injEq] at hc ht
        obtain ⟨hnp, houts, hcum⟩ := hc
        subst hnp houts hcum
        subst ht
        rw [cumsum_getLast_eq_sum _ (by simp), cumsum_length]
        refine ⟨?lasttwo, by simp⟩
        simp only [List.map_append, List.map_cons, List.map_nil, List.sum_append,
          List.sum_cons, List.sum_nil, List.lookup] at htotal ⊢
        simp [List.lookup]
        set a := american_to_implied_prob p.odds.joshua_ko
        set b := american_to_implied_prob p.odds.joshua_decision
        set c := american_to_implied_prob p.odds.paul_ko
        set d := american_to_implied_prob p.odds.paul_decision
        have ht2 : a + (b + (c + d)) ≠ 0 := by
          intro h0
          exact htotal (by linarith)
        field_simp

/-! ### Claims -/

/-- C1: for every SimulationParams config and every N ≥ 0, two engines
constructed from identical config (including the same seed) return
element-for-element identical record sequences from `simulate_batch(N, 0)`:
same sim_id, winner, method and round in the same order.  Construction is a
pure function of the config and the generator a pure function of the seed,
so the two engines coincide and so do their outputs for every uniform
stream `u`. -/
theorem sim_determinism (u : Int → Nat → ℚ) (p : SimulationParams) (N : Nat)
    (e1 e2 : SimulationEngine)
    (h1 : mkEngine p = .ok e1) (h2 : mkEngine p = .ok e2) :
    simulate_batch u e1 N 0 = simulate_batch u e2 N 0 := by
  rw [h1] at h2
  injection h2 with h
  rw [h]

/-- Witness for C1 at the default config, seed 42, N = 2. -/
theorem sim_determinism_witness :
    simulate_batch uZero engA 2 0 = simulate_batch uZero engA 2 0 :=
  sim_determinism uZero testParams 2 engA engA
    (by with_unfolding_all rfl) (by with_unfolding_all rfl)

/-- C2, counterexample: with `total_rounds := 5` the engine still constructs
successfully, and a decision record carries round 9, not
`total_rounds + 1 = 6`; the sentinel is the literal 9, independent of the
configured round count. -/
theorem round_sentinel_cex :
    (mkEngine paramsT5).toOption.isSome = true ∧
    ((mkEngine paramsT5).toOption.bind
      (fun e => (simulate_batch uDec e 1 0).map (fun out => out.1))) =
      some [{ sim_id := 0, winner := "Joshua", method := "Decision", round := 9 }] ∧
    paramsT5.odds.total_rounds + 1 = 6 ∧ ((9 : Int) ≠ 6) := by
  refine ⟨by with_unfolding_all rfl, by with_unfolding_all rfl, by decide, by decide⟩

/-- C2, amended: for every successfully constructed engine whose config has
`total_rounds = 8` (the literal the code hardcodes), every record of
`simulate_batch` with a finish method has round in `[1, total_rounds]` and
every decision or draw record has round `total_rounds + 1`. -/
theorem round_bounds_amended (u : Int → Nat → ℚ) (p : SimulationParams)
    (e : SimulationEngine) (count : Nat) (start_id : Int)
    (results : List FightResult) (e2 : SimulationEngine)
    (he : mkEngine p = .ok e) (h8 : p.odds.total_rounds = 8)
    (hrun : simulate_batch u e count start_id = some (results, e2)) :
    ∀ res ∈ results,
      (res.method = "KO/TKO/DQ" →
        1 ≤ res.round ∧ res.round ≤ e.params.odds.total_rounds) ∧
      ((res.method = "Decision" ∨ res.winner = "Draw") →
        res.round = e.params.odds.total_rounds + 1) := by
  have hep : e.params = p := (mkEngine_ok_elim p e he).2.1
  have htr : e.params.odds.total_rounds = 8 := by rw [hep, h8]
  unfold simulate_batch at hrun
  dsimp only at hrun
  cases hl : simBatchLoop u e
      ((Rng.drawMany u e.rng count).1.map (searchsorted e.cumulative_probs))
      start_id (Rng.drawMany u e.rng count).2 with
  | none => rw [hl] at hrun; simp at hrun
  | some out =>
    rw [hl] at hrun
    simp only [Option.some.injEq, Prod.mk.injEq] at hrun
    intro res hres
    have hmem : res ∈ out.1 := by
      rw [hrun.1]
      exact hres
    have hinv := simBatchLoop_invariant u e _ _ _ out.1 out.2
      (by rw [hl]) res hmem
    rw [htr]
    exact hinv

/-- Witness for C2 (amended) at the default config: the single record of
`simulate_batch` under the all-zero stream is a round-1 Joshua finish. -/
theorem round_bounds_amended_witness :
    1 ≤ ({ sim_id := 0, winner := "Joshua", method := "KO/TKO/DQ", round := 1 } : FightResult).round ∧
    ({ sim_id := 0, winner := "Joshua", method := "KO/TKO/DQ", round := 1 } : FightResult).round ≤
      engA.params.odds.total_rounds :=
  (round_bounds_amended uZero testParams engA 1 0
      [{ sim_id := 0, winner := "Joshua", method := "KO/TKO/DQ", round := 1 }]
      { engA with rng := { seed := 42, idx := 2 } }
      (by with_unfolding_all rfl) (by with_unfolding_all rfl)
      (by with_unfolding_all rfl)
      { sim_id := 0, winner := "Joshua", method := "KO/TKO/DQ", round := 1 }
      (by simp)).1 rfl

/-- C3, counterexample: `american_to_implied_prob 0` returns 0, not 0.5 as
the claim states (the `if odds > 0` guard sends 0 to the non-positive
branch, which yields `0/(0+100) = 0`). -/
theorem implied_prob_zero_cex :
    american_to_implied_prob 0 = 0 ∧ american_to_implied_prob 0 ≠ 1/2 := by
  constructor
  · with_unfolding_all rfl
  · with_unfolding_all decide

/-- C3, amended: a price of exactly 0 fails the `odds > 0` test, so it takes
the non-positive branch and returns 0.0; the function does not fail. -/
theorem implied_prob_zero_amended :
    ¬ ((0 : Int) > 0) ∧ american_to_implied_prob 0 = 0 := by
  constructor
  · decide
  · with_unfolding_all rfl

/-- C4, counterexample: constructing a RoundDistribution whose joshua vector
is all-zero succeeds (no validation error); the all-zero vector is stored
unchanged. -/
theorem zero_vector_accepted_cex :
    mkRoundDistribution (List.replicate 8 0) vec8 =
      .ok { joshua_ko_rounds := List.replicate 8 0, paul_ko_rounds := vec8 } := by
  with_unfolding_all rfl

/-- C4, amended: a correctly sized, non-negative round-weight vector whose
sum is 0 is accepted at construction time; the normalization step is skipped
for it (the `if joshua_sum > 0` guard) and the all-zero vector is stored
as-is.  No validation error is raised. -/
theorem zero_vector_amended (j p : List ℚ) (hj : j.length = 8) (hp : p.length = 8)
    (hjn : ∀ x ∈ j, 0 ≤ x) (hpn : ∀ x ∈ p, 0 ≤ x) (hsum : j.sum = 0) :
    mkRoundDistribution j p =
      .ok { joshua_ko_rounds := j
            paul_ko_rounds := if p.sum > 0 then p.map (fun x => x / p.sum) else p } := by
  unfold mkRoundDistribution
  rw [if_neg (by simp [hj]), if_neg (by simp [hp])]
  rw [if_neg ?jneg, if_neg ?pneg]
  case jneg =>
    simp only [List.any_eq_true, not_exists, not_and]
    intro x hx
    simp only [decide_eq_true_eq, not_lt]
    exact hjn x hx
  case pneg =>
    simp only [List.any_eq_true, not_exists, not_and]
    intro x hx
    simp only [decide_eq_true_eq, not_lt]
    exact hpn x hx
  dsimp only
  rw [hsum, if_neg (lt_irrefl 0)]

/-- Witness for C4 (amended) at the all-zero joshua vector and the uniform
paul vector. -/
theorem zero_vector_amended_witness :
    mkRoundDistribution (List.replicate 8 0) vec8 =
      .ok { joshua_ko_rounds := List.replicate 8 0
            paul_ko_rounds := if vec8.sum > 0 then vec8.map (fun x => x / vec8.sum) else vec8 } :=
  zero_vector_amended (List.replicate 8 0) vec8 (by simp) (by simp [vec8])
    (fun x hx => by rw [List.eq_of_mem_replicate hx])
    (fun x hx => by
      simp [vec8] at hx
      rw [hx]
      norm_num)
    (by simp)

/-- C5, counterexample: with `total_rounds := 10` and round vectors of
length 8 (different from `total_rounds`), both the RoundDistribution and the
full engine construct successfully — the length check compares against the
literal 8, never against `total_rounds`. -/
theorem length_vs_total_rounds_cex :
    paramsT10.odds.total_rounds = 10 ∧
    paramsT10.round_dist.joshua_ko_rounds.length = 8 ∧
    ((8 : Int) ≠ 10) ∧
    mkRoundDistribution vec8 vec8 = .ok testDist ∧
    (mkEngine paramsT10).toOption.isSome = true := by
  refine ⟨rfl, by with_unfolding_all rfl, by decide, by with_unfolding_all rfl,
    by with_unfolding_all rfl⟩

/-- C5, amended: the vector length is validated against the constant 8
(independent of the configured `total_rounds`); a joshua vector of length
≠ 8 is rejected with an error naming that vector and the expected count,
without reporting the actual length. -/
theorem length_checked_against_eight (j p : List ℚ) (h : j.length ≠ 8) :
    mkRoundDistribution j p = .error "joshua_ko_rounds must have 8 values" := by
  unfold mkRoundDistribution
  rw [if_pos h]

/-- Witness for C5 (amended) at a singleton vector. -/
theorem length_checked_against_eight_witness :
    mkRoundDistribution [1] vec8 = .error "joshua_ko_rounds must have 8 values" :=
  length_checked_against_eight [1] vec8 (by decide)

/-- C6: for every engine whose construction succeeded and every count ≥ 0
and start_id, `simulate_batch` returns normally: every uniform in `[0,1)`
maps through the first-cumulative-entry-at-least-u rule to a valid index of
the outcome list (the cumulative table of a constructed engine ends in
exactly 1 and has the same length as the outcome list). -/
theorem simulate_batch_total (u : Int → Nat → ℚ) (p : SimulationParams)
    (e : SimulationEngine) (count : Nat) (start_id : Int)
    (he : mkEngine p = .ok e) (hu : ∀ s n, 0 ≤ u s n ∧ u s n < 1) :
    (∀ v : ℚ, 0 ≤ v → v < 1 →
      searchsorted e.cumulative_probs v < e.outcomes.length) ∧
    (simulate_batch u e count start_id).isSome = true := by
  have hc := (mkEngine_ok_elim p e he).1
  obtain ⟨hlast, hlen⟩ := compute_probabilities_tables p _ _ _ hc
  have hidx : ∀ v : ℚ, 0 ≤ v → v < 1 →
      searchsorted e.cumulative_probs v < e.outcomes.length := by
    intro v _ h1
    rw [← hlen]
    exact searchsorted_lt_length _ v 1 hlast (le_of_lt h1)
  refine ⟨hidx, ?total⟩
  have hall : ∀ i ∈ (Rng.drawMany u e.rng count).1.map (searchsorted e.cumulative_probs),
      i < e.outcomes.length := by
    intro i hi
    obtain ⟨v, hv, hiv⟩ := List.mem_map.mp hi
    unfold Rng.drawMany at hv
    dsimp only at hv
    obtain ⟨k, _, hkv⟩ := List.mem_map.mp hv
    rw [← hiv]
    exact hidx v (by rw [← hkv]; exact (hu _ _).1) (by rw [← hkv]; exact (hu _ _).2)
  obtain ⟨out, hout⟩ := simBatchLoop_isSome u e
    ((Rng.drawMany u e.rng count).1.map (searchsorted e.cumulative_probs))
    start_id (Rng.drawMany u e.rng count).2 hall
  unfold simulate_batch
  dsimp only
  rw [hout]
  rfl

/-- Witness for C6 at the default config and the all-zero stream. -/
theorem simulate_batch_total_witness :
    (simulate_batch uZero engA 3 0).isSome = true :=
  (simulate_batch_total uZero testParams engA 3 0
    (by with_unfolding_all rfl)
    (fun _ _ => ⟨le_refl 0, by norm_num [uZero]⟩)).2

/-- C7: `simulate_batch(0, k)` returns an empty sequence and leaves the
generator state unchanged — the returned engine is exactly the input engine,
so all later draws coincide with those of an engine that never made the
zero-count call. -/
theorem simulate_batch_zero_count (u : Int → Nat → ℚ) (e : SimulationEngine)
    (k : Int) : simulate_batch u e 0 k = some ([], e) := rfl

/-- C8: `reseed s` replaces only the generator and the stored seed field,
leaving the normalized probabilities, outcome order and cumulative table
unchanged, and the reseeded engine is exactly the engine a fresh
construction from the same config with seed s yields (hence identical
`simulate_batch` outputs, call for call). -/
theorem reseed_fresh_equiv (p : SimulationParams) (e : SimulationEngine) (s : Int)
    (he : mkEngine p = .ok e) :
    (reseed e s).normalized_probs = e.normalized_probs ∧
    (reseed e s).outcomes = e.outcomes ∧
    (reseed e s).cumulative_probs = e.cumulative_probs ∧
    (reseed e s).params = { e.params with seed := s } ∧
    mkEngine { p with seed := s } = .ok (reseed e s) := by
  refine ⟨rfl, rfl, rfl, rfl, ?fresh⟩
  obtain ⟨hc, hep, hrng⟩ := mkEngine_ok_elim p e he
  have hcs : compute_probabilities { p with seed := s } = compute_probabilities p := rfl
  unfold mkEngine
  rw [hcs, hc]
  dsimp only
  unfold reseed
  rw [hep]

/-- Witness for C8 at the default config and seed 7. -/
theorem reseed_fresh_equiv_witness :
    mkEngine { testParams with seed := 7 } = .ok (reseed engA 7) :=
  (reseed_fresh_equiv testParams engA 7 (by with_unfolding_all rfl)).2.2.2.2

/-- C9: batch splitting is not neutral.  With the default config and the
stream that yields 9/10 at draw index 2 and 0 elsewhere, running
`simulate_batch(1,0)` then `simulate_batch(1,1)` produces a different record
sequence than a single `simulate_batch(2,0)`: the engine consumes all count
top-level uniforms as one block before any per-record round uniform, so the
stream-to-record mapping depends on the batch partition. -/
theorem batch_split_not_neutral :
    ((simulate_batch uNine engA 1 0).bind (fun out1 =>
        (simulate_batch uNine out1.2 1 1).map (fun out2 => out1.1 ++ out2.1))) ≠
      (simulate_batch uNine engA 2 0).map (fun out => out.1) := by
  with_unfolding_all decide

/-- C10: `_sample_round` is total over every 8-element list of non-negative
weights, always returning an integer in `[1, 8]`; for the all-zero weight
vector it does not fail, and any uniform draw strictly greater than 0 yields
round 8 (the clamp maps the past-the-end search index back to the last
round). -/
theorem sample_round_total (u : Int → Nat → ℚ) (probs : List ℚ) (r : Rng)
    (h8 : probs.length = 8) (hnn : ∀ x ∈ probs, 0 ≤ x) :
    1 ≤ (sample_round u probs r).1 ∧ (sample_round u probs r).1 ≤ 8 ∧
    ((∀ x ∈ probs, x = 0) → 0 < u r.seed r.idx →
      (sample_round u probs r).1 = 8) := by
  obtain ⟨hb1, hb2⟩ := sample_round_bounds u probs r
  refine ⟨hb1, hb2, ?zerocase⟩
  intro hz hu
  have hcz : ∀ y ∈ cumsum probs, y < u r.seed r.idx := by
    intro y hy
    rw [cumsum_eq_zero probs hz y hy]
    exact hu
  have hss : searchsorted (cumsum probs) (Rng.draw u r).1 = (cumsum probs).length :=
    searchsorted_eq_length_of_all_lt _ _ hcz
  unfold sample_round
  dsimp only
  rw [hss, cumsum_length, h8]
  rfl

/-- Witness for C10 at the all-zero vector and a stream with value 4/5. -/
theorem sample_round_total_witness :
    (sample_round uDec (List.replicate 8 0) { seed := 0, idx := 0 }).1 = 8 :=
  (sample_round_total uDec (List.replicate 8 0) { seed := 0, idx := 0 }
    (by simp)
    (fun x hx => by rw [List.eq_of_mem_replicate hx])).2.2
    (fun x hx => List.eq_of_mem_replicate hx)
    (by norm_num [uDec])

end Sim
